import Mathlib

/-!
Shallow embedding of `src/js/utils/NeuralNetwork.js` from the
ecosystem-evolution-simulation repository, and proofs settling the frozen
claims about its specification.

Numbers are modelled as real numbers.  JavaScript's implicit `Math.random()`
source is modelled as an explicit stream `s : ℕ → ℝ` of successive draws
(each draw of the real engine lies in `[0, 1)`); consuming `n` draws shifts
the stream by `n`.  Out-of-range JavaScript array reads (which yield
`undefined`) are modelled with `List.getD` defaults; every theorem below is
stated on inputs where no such read occurs, so the default is never
exercised.  Methods that `throw` are modelled with `Except String`.
-/

noncomputable section

/-- The genome data structure of the `NeuralNetwork` class: `layers`
(the topology), the bound activation function and its name, per-transition
weight matrices and bias vectors, and the constructor-set optimization
flag. -/
structure NeuralNetwork where
  layers : List ℕ
  activation : ℝ → ℝ
  activationName : String
  weights : List (List (List ℝ))
  biases : List (List ℝ)
  useOptimizedOperations : Bool

namespace NeuralNetwork

/-- `static sigmoid(x)`: clamped to `0` below `-15` and `1` above `15`. -/
def sigmoid (x : ℝ) : ℝ :=
  if x < -15 then 0
  else if x > 15 then 1
  else 1 / (1 + Real.exp (-x))

/-- `static relu(x)`: `Math.max(0, x)`. -/
def relu (x : ℝ) : ℝ := max 0 x

/-- `static leakyRelu(x, alpha = 0.01)`; callers through the activation map
pass only `x`, so `alpha` is the default `0.01` there. -/
def leakyRelu (x : ℝ) (alpha : ℝ) : ℝ :=
  if x > 0 then x else alpha * x

/-- `static tanh(x)`: clamped outside `[-10, 10]`, otherwise computed from
`e2x = Math.exp(2 * x)`. -/
def tanh (x : ℝ) : ℝ :=
  if x > 10 then 1
  else if x < -10 then -1
  else (Real.exp (2 * x) - 1) / (Real.exp (2 * x) + 1)

/-- The inner accumulation loop `for (m = k; m < n; m++) sum += outputs[m] * weights[m]`
shared by the naive forward pass (started at `k = 0`) and the remainder
handling of the unrolled pass. -/
def remSum (o w : List ℝ) (n k : ℕ) (sum : ℝ) : ℝ :=
  if _h : k < n then remSum o w n (k + 1) (sum + o.getD k 0 * w.getD k 0) else sum
termination_by n - k
decreasing_by omega

/-- The 4-element unrolled accumulation loop of `feedForwardOptimized`:
`for (k = 0; k < n; k += 4)` processing four products at a time when
`k + 3 < n` and falling back to the element-wise remainder loop otherwise. -/
def unrolledSum (o w : List ℝ) (n k : ℕ) (sum : ℝ) : ℝ :=
  if h : k < n then
    if k + 3 < n then
      unrolledSum o w n (k + 4)
        (sum + (o.getD k 0 * w.getD k 0 + o.getD (k + 1) 0 * w.getD (k + 1) 0 +
          o.getD (k + 2) 0 * w.getD (k + 2) 0 + o.getD (k + 3) 0 * w.getD (k + 3) 0))
    else
      unrolledSum o w n (k + 4) (remSum o w n k sum)
  else sum
termination_by n - k
decreasing_by all_goals omega

/-- One layer of the straightforward pass in `feedForward`: neuron `j` sums
`biases[i][j] + Σ_k outputs[k] * weights[i][j][k]` over `weights[i][j].length`
terms in ascending `k` order and applies the activation. -/
def naiveLayer (act : ℝ → ℝ) (outputs : List ℝ) (wl : List (List ℝ)) (bl : List ℝ) : List ℝ :=
  (List.range wl.length).map fun j =>
    act (remSum outputs (wl.getD j []) (wl.getD j []).length 0 (bl.getD j 0))

/-- One layer of `feedForwardOptimized`: the loop bound `prevLayerSize` is
read from row `0` of the layer's weight matrix, and each neuron's sum is
accumulated by the 4-element unrolled loop. -/
def optLayer (act : ℝ → ℝ) (outputs : List ℝ) (wl : List (List ℝ)) (bl : List ℝ) : List ℝ :=
  (List.range wl.length).map fun j =>
    act (unrolledSum outputs (wl.getD j []) (wl.headD []).length 0 (bl.getD j 0))

/-- The per-layer loop of the straightforward branch of `feedForward`. -/
def ffNaiveGo (act : ℝ → ℝ) : List (List (List ℝ)) → List (List ℝ) → List ℝ → List ℝ
  | [], _, outputs => outputs
  | wl :: ws, bs, outputs => ffNaiveGo act ws bs.tail (naiveLayer act outputs wl (bs.headD []))

/-- The per-layer loop of `feedForwardOptimized`. -/
def ffOptGo (act : ℝ → ℝ) : List (List (List ℝ)) → List (List ℝ) → List ℝ → List ℝ
  | [], _, outputs => outputs
  | wl :: ws, bs, outputs => ffOptGo act ws bs.tail (optLayer act outputs wl (bs.headD []))

/-- `feedForwardOptimized(inputs)`. -/
def feedForwardOptimized (nn : NeuralNetwork) (inputs : List ℝ) : List ℝ :=
  ffOptGo nn.activation nn.weights nn.biases inputs

/-- The straightforward per-layer accumulation that `feedForward` runs when
`useOptimizedOperations` is false. -/
def feedForwardNaive (nn : NeuralNetwork) (inputs : List ℝ) : List ℝ :=
  ffNaiveGo nn.activation nn.weights nn.biases inputs

/-- `feedForward(inputs)`: dispatches on the `useOptimizedOperations` flag. -/
def feedForward (nn : NeuralNetwork) (inputs : List ℝ) : List ℝ :=
  if nn.useOptimizedOperations then feedForwardOptimized nn inputs
  else feedForwardNaive nn inputs

/-- Advance a random-draw stream past its first `n` draws. -/
def shift (s : ℕ → ℝ) (n : ℕ) : ℕ → ℝ := fun m => s (m + n)

/-- The innermost `mutate` loop over one weight row (or, reused, one bias
vector): per element, one draw decides `Math.random() < rate`; on success a
second draw supplies the perturbation `(Math.random() * 2 - 1) * amount`. -/
def mutateRow (rate amount : ℝ) : List ℝ → (ℕ → ℝ) → List ℝ × (ℕ → ℝ)
  | [], s => ([], s)
  | w :: ws, s =>
    if s 0 < rate then
      let p := mutateRow rate amount ws (shift s 2)
      ((w + (s 1 * 2 - 1) * amount) :: p.1, p.2)
    else
      let p := mutateRow rate amount ws (shift s 1)
      (w :: p.1, p.2)

/-- `mutate`'s loop over one layer's rows (also reused for the bias level). -/
def mutateMat (rate amount : ℝ) : List (List ℝ) → (ℕ → ℝ) → List (List ℝ) × (ℕ → ℝ)
  | [], s => ([], s)
  | r :: rs, s =>
    let p := mutateRow rate amount r s
    let q := mutateMat rate amount rs p.2
    (p.1 :: q.1, q.2)

/-- `mutate`'s loop over all weight matrices. -/
def mutateCube (rate amount : ℝ) :
    List (List (List ℝ)) → (ℕ → ℝ) → List (List (List ℝ)) × (ℕ → ℝ)
  | [], s => ([], s)
  | m :: ms, s =>
    let p := mutateMat rate amount m s
    let q := mutateCube rate amount ms p.2
    (p.1 :: q.1, q.2)

/-- `mutate(rate, amount)`: perturbs all weights (first) and then all biases
in place; modelled as returning the updated genome. -/
def mutate (nn : NeuralNetwork) (rate amount : ℝ) (s : ℕ → ℝ) : NeuralNetwork :=
  let wp := mutateCube rate amount nn.weights s
  let bp := mutateMat rate amount nn.biases wp.2
  { nn with weights := wp.1, biases := bp.1 }

/-- The innermost `crossover` loop: for each index `k` of `this`'s row, one
draw decides `Math.random() < crossoverRate`, inheriting from `this` on
success and from `other` otherwise. -/
def crossRow (rate : ℝ) : List ℝ → List ℝ → (ℕ → ℝ) → List ℝ × (ℕ → ℝ)
  | [], _, s => ([], s)
  | x :: xs, ys, s =>
    let p := crossRow rate xs ys.tail (shift s 1)
    ((if s 0 < rate then x else ys.headD 0) :: p.1, p.2)

/-- `crossover`'s loop over one layer's rows (also reused for biases). -/
def crossMat (rate : ℝ) :
    List (List ℝ) → List (List ℝ) → (ℕ → ℝ) → List (List ℝ) × (ℕ → ℝ)
  | [], _, s => ([], s)
  | r :: rs, ys, s =>
    let p := crossRow rate r (ys.headD []) s
    let q := crossMat rate rs ys.tail p.2
    (p.1 :: q.1, q.2)

/-- `crossover`'s loop over all weight matrices. -/
def crossCube (rate : ℝ) :
    List (List (List ℝ)) → List (List (List ℝ)) → (ℕ → ℝ) →
      List (List (List ℝ)) × (ℕ → ℝ)
  | [], _, s => ([], s)
  | m :: ms, ys, s =>
    let p := crossMat rate m (ys.headD []) s
    let q := crossCube rate ms ys.tail p.2
    (p.1 :: q.1, q.2)

/-- `crossover(other, crossoverRate)`: throws on a topology-length mismatch,
then on any element-wise topology mismatch; otherwise crosses all weights and
then all biases element-by-element and builds a fresh child genome carrying
`this`'s layers, activation and activation name. -/
def crossover (a b : NeuralNetwork) (rate : ℝ) (s : ℕ → ℝ) : Except String NeuralNetwork :=
  if a.layers.length ≠ b.layers.length then
    Except.error "Cannot crossover networks with different architectures"
  else if (List.range a.layers.length).any
      (fun i => a.layers.getD i 0 != b.layers.getD i 0) then
    Except.error "Cannot crossover networks with different layer sizes"
  else
    let wp := crossCube rate a.weights b.weights s
    let bp := crossMat rate a.biases b.biases wp.2
    Except.ok
      { layers := a.layers
        activation := a.activation
        activationName := a.activationName
        weights := wp.1
        biases := bp.1
        useOptimizedOperations := true }

/-- `difference`'s accumulation over one row pair:
`totalDiff += Math.abs(this[k] - other[k]); totalElements++` for each index
`k` of `this`'s row. -/
def diffAccRow : ℝ × ℕ → List ℝ → List ℝ → ℝ × ℕ
  | acc, [], _ => acc
  | (d, c), x :: xs, ys => diffAccRow (d + |x - ys.headD 0|, c + 1) xs ys.tail

/-- `difference`'s accumulation over one matrix pair (also used for biases). -/
def diffAccMat : ℝ × ℕ → List (List ℝ) → List (List ℝ) → ℝ × ℕ
  | acc, [], _ => acc
  | acc, r :: rs, ys => diffAccMat (diffAccRow acc r (ys.headD [])) rs ys.tail

/-- `difference`'s accumulation over all weight matrices. -/
def diffAccCube : ℝ × ℕ → List (List (List ℝ)) → List (List (List ℝ)) → ℝ × ℕ
  | acc, [], _ => acc
  | acc, m :: ms, ys => diffAccCube (diffAccMat acc m (ys.headD [])) ms ys.tail

/-- `difference(other)`: sums absolute element-wise differences over all
weights then all biases (indexed by `this`'s array bounds, with no
compatibility check) and returns the average per element, or `0` when there
are no elements. -/
def difference (a b : NeuralNetwork) : ℝ :=
  let acc1 := diffAccCube (0, 0) a.weights b.weights
  let acc := diffAccMat acc1 a.biases b.biases
  if 0 < acc.2 then acc.1 / (acc.2 : ℝ) else 0

/-- `prune`'s innermost loop over one weight row: zeroes each element with
`Math.abs(w) < threshold` and counts it. -/
def pruneRow (t : ℝ) : List ℝ → List ℝ × ℕ
  | [] => ([], 0)
  | w :: ws =>
    let p := pruneRow t ws
    if |w| < t then (0 :: p.1, p.2 + 1) else (w :: p.1, p.2)

/-- `prune`'s loop over one layer's rows. -/
def pruneMat (t : ℝ) : List (List ℝ) → List (List ℝ) × ℕ
  | [] => ([], 0)
  | r :: rs =>
    let p := pruneRow t r
    let q := pruneMat t rs
    (p.1 :: q.1, p.2 + q.2)

/-- `prune`'s loop over all weight matrices. -/
def pruneCube (t : ℝ) : List (List (List ℝ)) → List (List (List ℝ)) × ℕ
  | [] => ([], 0)
  | m :: ms =>
    let p := pruneMat t m
    let q := pruneCube t ms
    (p.1 :: q.1, p.2 + q.2)

/-- `prune(threshold)`: zeroes every weight with `|w| < threshold` in place
(biases untouched) and returns the updated genome together with the count of
elements pruned. -/
def prune (nn : NeuralNetwork) (t : ℝ) : NeuralNetwork × ℕ :=
  let p := pruneCube t nn.weights
  ({ nn with weights := p.1 }, p.2)

/-- The flat record produced by `toJSON`: layers, activation name, weights
and biases. -/
structure NNJson where
  layers : List ℕ
  activationName : String
  weights : List (List (List ℝ))
  biases : List (List ℝ)

/-- `toJSON()`. -/
def toJSON (nn : NeuralNetwork) : NNJson :=
  { layers := nn.layers
    activationName := nn.activationName
    weights := nn.weights
    biases := nn.biases }

/-- The `activationMap` lookup inside `static fromJSON`. -/
def activationLookup (name : String) : Option (ℝ → ℝ) :=
  if name = "sigmoid" then some sigmoid
  else if name = "relu" then some relu
  else if name = "tanh" then some tanh
  else if name = "leakyRelu" then some (fun x => leakyRelu x 0.01)
  else none

/-- The activation function `fromJSON` binds for a given name:
`activationMap[name] || NeuralNetwork.sigmoid`. -/
def activationOf (name : String) : ℝ → ℝ :=
  (activationLookup name).getD sigmoid

/-- `static fromJSON(json)`: rebinds the activation through the name map
(falling back to sigmoid on an unknown name), keeps the stored name unless it
is falsy (the empty string), and passes layers, weights and biases verbatim
to the constructor, which sets `useOptimizedOperations = true`. -/
def fromJSON (j : NNJson) : NeuralNetwork :=
  { layers := j.layers
    activation := (activationLookup j.activationName).getD sigmoid
    activationName := if j.activationName = "" then "sigmoid" else j.activationName
    weights := j.weights
    biases := j.biases
    useOptimizedOperations := true }

/-- One neuron of `initialize()`: `fanIn` weight draws scaled by the Xavier
factor, then one bias draw scaled by `0.1`. -/
def initNeuron (fanIn : ℕ) (scale : ℝ) (s : ℕ → ℝ) : List ℝ × ℝ :=
  (((List.range fanIn).map fun k => (s k * 2 - 1) * scale), (s fanIn * 2 - 1) * 0.1)

/-- The per-neuron loop of `initialize()` for one layer transition with
`fanOut` neurons. -/
def initLayerGo (fanIn : ℕ) (scale : ℝ) : ℕ → (ℕ → ℝ) → List (List ℝ) × List ℝ × (ℕ → ℝ)
  | 0, s => ([], [], s)
  | j + 1, s =>
    let p := initNeuron fanIn scale s
    let q := initLayerGo fanIn scale j (shift s (fanIn + 1))
    (p.1 :: q.1, p.2 :: q.2.1, q.2.2)

/-- The transition loop of `initialize()`: for each consecutive pair
`(fanIn, fanOut)` of layer sizes, the Xavier scale is
`Math.sqrt(2 / (fanIn + fanOut))` and one weight matrix and bias vector are
drawn. -/
def initializeGo : List ℕ → (ℕ → ℝ) → List (List (List ℝ)) × List (List ℝ) × (ℕ → ℝ)
  | fanIn :: fanOut :: rest, s =>
    let scale := Real.sqrt (2 / ((fanIn : ℝ) + (fanOut : ℝ)))
    let p := initLayerGo fanIn scale fanOut s
    let q := initializeGo (fanOut :: rest) p.2.2
    (p.1 :: q.1, p.2.1 :: q.2.1, q.2.2)
  | _, s => ([], [], s)

/-- The constructor on options `{ layers, activation, activationName }`
without pre-defined weights or biases: it stores the arguments, runs
`initialize()` on the random source, and sets `useOptimizedOperations`.
No validation of any kind is performed on `layers`. -/
def construct (layers : List ℕ) (act : ℝ → ℝ) (name : String) (s : ℕ → ℝ) : NeuralNetwork :=
  let wb := initializeGo layers s
  { layers := layers
    activation := act
    activationName := name
    weights := wb.1
    biases := wb.2.1
    useOptimizedOperations := true }

/-- Shape validity of a weight cube against a topology: one matrix per layer
transition, `topology[i+1]` rows each of length `topology[i]`. -/
def wfWeights : List ℕ → List (List (List ℝ)) → Bool
  | nIn :: nOut :: rest, wl :: ws =>
    wl.length == nOut && wl.all (fun r => r.length == nIn) && wfWeights (nOut :: rest) ws
  | _ :: [], [] => true
  | _, _ => false

/-- Shape validity of the bias lists against a topology: one vector of
length `topology[i+1]` per layer transition. -/
def wfBiases : List ℕ → List (List ℝ) → Bool
  | _ :: nOut :: rest, bl :: bs => bl.length == nOut && wfBiases (nOut :: rest) bs
  | _ :: [], [] => true
  | _, _ => false

/-- The data-model invariants of a genome from the specification: a topology
of length at least two with positive entries, and weight/bias storage of the
matching shape. -/
def wellFormed (nn : NeuralNetwork) : Bool :=
  decide (2 ≤ nn.layers.length) && nn.layers.all (fun n => decide (0 < n)) &&
    wfWeights nn.layers nn.weights && wfBiases nn.layers nn.biases

/-- What one pruned weight element becomes: `0` when `|w| < t`, else `w`. -/
def zeroSmall (t w : ℝ) : ℝ := if |w| < t then 0 else w

/-- The number of elements of a row with `|w| < t`. -/
def countSmall (t : ℝ) (l : List ℝ) : ℕ :=
  (l.filter fun w => decide (|w| < t)).length

/-- The concrete genome of the specification's worked example: topology
`[2,2,1]`, sigmoid activation, identity-like first layer, summing second
layer. -/
def nnEx : NeuralNetwork :=
  { layers := [2, 2, 1]
    activation := sigmoid
    activationName := "sigmoid"
    weights := [[[1, 0], [0, 1]], [[1, 1]]]
    biases := [[0, 0], [0]]
    useOptimizedOperations := true }

/-- A minimal concrete genome with topology `[1, 1]`, unit weight, zero
bias. -/
def gA : NeuralNetwork :=
  { layers := [1, 1]
    activation := sigmoid
    activationName := "sigmoid"
    weights := [[[1]]]
    biases := [[0]]
    useOptimizedOperations := true }

/-- A concrete genome with topology `[1, 2]`, shape-incompatible with
`gA`. -/
def gB : NeuralNetwork :=
  { layers := [1, 2]
    activation := sigmoid
    activationName := "sigmoid"
    weights := [[[3], [9]]]
    biases := [[1, 5]]
    useOptimizedOperations := true }

/-- A concrete genome with topology `[1, 1]` used as crossover parent `A`. -/
def gC : NeuralNetwork :=
  { layers := [1, 1]
    activation := sigmoid
    activationName := "sigmoid"
    weights := [[[2]]]
    biases := [[3]]
    useOptimizedOperations := true }

/-- A concrete genome with topology `[1, 1]` used as crossover parent `B`. -/
def gD : NeuralNetwork :=
  { layers := [1, 1]
    activation := sigmoid
    activationName := "sigmoid"
    weights := [[[4]]]
    biases := [[5]]
    useOptimizedOperations := true }

/-- A concrete genome whose single weight `1/4` is prunable at threshold
`1/2`. -/
def nnP : NeuralNetwork :=
  { layers := [1, 1]
    activation := sigmoid
    activationName := "sigmoid"
    weights := [[[1 / 4]]]
    biases := [[0]]
    useOptimizedOperations := true }

/-- A serialized record whose activation name is the empty string: a string
outside the recognized enumeration, and falsy in JavaScript. -/
def recEmptyName : NNJson :=
  { layers := [1, 1]
    activationName := ""
    weights := [[[1]]]
    biases := [[0]] }

/-- A serialized record with an unrecognized non-empty activation name. -/
def recSwish : NNJson :=
  { layers := [1, 1]
    activationName := "swish"
    weights := [[[1]]]
    biases := [[0]] }

end NeuralNetwork

open NeuralNetwork

/-! ## Helper lemmas -/

theorem mutateRow_zero (a : ℝ) : ∀ (ws : List ℝ) (s : ℕ → ℝ), (∀ n, 0 ≤ s n) →
    (mutateRow 0 a ws s).1 = ws ∧ ∀ n, 0 ≤ (mutateRow 0 a ws s).2 n := by
  intro ws
  induction ws with
  | nil => intro s h; exact ⟨rfl, h⟩
  | cons w ws ih =>
    intro s h
    have hlt : ¬ s 0 < 0 := not_lt.mpr (h 0)
    obtain ⟨h1, h2⟩ := ih (shift s 1) (fun n => h (n + 1))
    simp only [mutateRow, if_neg hlt]
    exact ⟨by rw [h1], h2⟩

theorem mutateMat_zero (a : ℝ) : ∀ (m : List (List ℝ)) (s : ℕ → ℝ), (∀ n, 0 ≤ s n) →
    (mutateMat 0 a m s).1 = m ∧ ∀ n, 0 ≤ (mutateMat 0 a m s).2 n := by
  intro m
  induction m with
  | nil => intro s h; exact ⟨rfl, h⟩
  | cons r rs ih =>
    intro s h
    obtain ⟨h1, h2⟩ := mutateRow_zero a r s h
    obtain ⟨h3, h4⟩ := ih (mutateRow 0 a r s).2 h2
    simp only [mutateMat]
    exact ⟨by rw [h1, h3], h4⟩

theorem mutateCube_zero (a : ℝ) : ∀ (c : List (List (List ℝ))) (s : ℕ → ℝ),
    (∀ n, 0 ≤ s n) →
    (mutateCube 0 a c s).1 = c ∧ ∀ n, 0 ≤ (mutateCube 0 a c s).2 n := by
  intro c
  induction c with
  | nil => intro s h; exact ⟨rfl, h⟩
  | cons m ms ih =>
    intro s h
    obtain ⟨h1, h2⟩ := mutateMat_zero a m s h
    obtain ⟨h3, h4⟩ := ih (mutateMat 0 a m s).2 h2
    simp only [mutateCube]
    exact ⟨by rw [h1, h3], h4⟩

theorem sum_Ico_four (f : ℕ → ℝ) (k : ℕ) :
    ∑ m ∈ Finset.Ico k (k + 4), f m = f k + f (k + 1) + f (k + 2) + f (k + 3) := by
  have e : Finset.Ico k (k + 4) = {k, k + 1, k + 2, k + 3} := by
    ext x
    simp only [Finset.mem_Ico, Finset.mem_insert, Finset.mem_singleton]
    omega
  have m1 : k ∉ ({k + 1, k + 2, k + 3} : Finset ℕ) := by
    simp only [Finset.mem_insert, Finset.mem_singleton]; omega
  have m2 : k + 1 ∉ ({k + 2, k + 3} : Finset ℕ) := by
    simp only [Finset.mem_insert, Finset.mem_singleton]; omega
  have m3 : k + 2 ∉ ({k + 3} : Finset ℕ) := by
    simp only [Finset.mem_singleton]; omega
  rw [e, Finset.sum_insert m1, Finset.sum_insert m2, Finset.sum_insert m3,
    Finset.sum_singleton]
  ring

theorem remSum_eq (o w : List ℝ) (n : ℕ) : ∀ (d k : ℕ) (sum : ℝ), n - k = d →
    remSum o w n k sum = sum + ∑ m ∈ Finset.Ico k n, o.getD m 0 * w.getD m 0 := by
  intro d
  induction d with
  | zero =>
    intro k sum h
    have hk : ¬ k < n := by omega
    rw [remSum, dif_neg hk, Finset.Ico_eq_empty hk, Finset.sum_empty, add_zero]
  | succ d ih =>
    intro k sum h
    have hk : k < n := by omega
    rw [remSum, dif_pos hk, ih (k + 1) _ (by omega),
      Finset.sum_eq_sum_Ico_succ_bot hk]
    ring

theorem unrolledSum_eq (o w : List ℝ) (n : ℕ) : ∀ (d k : ℕ) (sum : ℝ), n - k = d →
    unrolledSum o w n k sum = sum + ∑ m ∈ Finset.Ico k n, o.getD m 0 * w.getD m 0 := by
  intro d
  induction d using Nat.strong_induction_on with
  | _ d ih =>
    intro k sum h
    by_cases hk : k < n
    · rw [unrolledSum, dif_pos hk]
      by_cases h3 : k + 3 < n
      · rw [if_pos h3, ih (n - (k + 4)) (by omega) (k + 4) _ rfl,
          ← Finset.sum_Ico_consecutive _ (by omega : k ≤ k + 4) (by omega : k + 4 ≤ n),
          sum_Ico_four]
        ring
      · rw [if_neg h3, ih (n - (k + 4)) (by omega) (k + 4) _ rfl,
          remSum_eq o w n (n - k) k sum rfl,
          Finset.Ico_eq_empty (by omega : ¬ k + 4 < n), Finset.sum_empty, add_zero]
    · rw [unrolledSum, dif_neg hk, Finset.Ico_eq_empty hk, Finset.sum_empty, add_zero]

theorem optLayer_eq_naiveLayer (act : ℝ → ℝ) (outputs : List ℝ) (wl : List (List ℝ))
    (bl : List ℝ) (h : ∀ r ∈ wl, r.length = (wl.headD []).length) :
    optLayer act outputs wl bl = naiveLayer act outputs wl bl := by
  unfold optLayer naiveLayer
  apply List.map_congr_left
  intro j hj
  rw [List.mem_range] at hj
  have hmem : wl.getD j [] ∈ wl := by
    rw [List.getD_eq_getElem?_getD, List.getElem?_eq_getElem hj]
    exact List.getElem_mem hj
  rw [unrolledSum_eq outputs (wl.getD j []) (wl.headD []).length _ 0 _ rfl,
    remSum_eq outputs (wl.getD j []) (wl.getD j []).length _ 0 _ rfl,
    h (wl.getD j []) hmem]

theorem ffOptGo_eq_ffNaiveGo (act : ℝ → ℝ) :
    ∀ (ws : List (List (List ℝ))) (bs : List (List ℝ)) (outputs : List ℝ),
    (∀ wl ∈ ws, ∀ r ∈ wl, r.length = (wl.headD []).length) →
    ffOptGo act ws bs outputs = ffNaiveGo act ws bs outputs := by
  intro ws
  induction ws with
  | nil => intro bs outputs _; rfl
  | cons wl ws ih =>
    intro bs outputs h
    rw [ffOptGo, ffNaiveGo,
      optLayer_eq_naiveLayer act outputs wl (bs.headD []) (h wl (by simp))]
    exact ih bs.tail _ fun wl' hwl' => h wl' (by simp [hwl'])

theorem pruneRow_eq (t : ℝ) : ∀ l : List ℝ,
    pruneRow t l = (l.map (zeroSmall t), countSmall t l) := by
  intro l
  induction l with
  | nil => simp [pruneRow, countSmall]
  | cons w ws ih =>
    by_cases h : |w| < t
    · simp [pruneRow, countSmall, zeroSmall, h, ih, List.filter,
        Nat.add_comm]
    · simp [pruneRow, countSmall, zeroSmall, h, ih, List.filter]

theorem pruneMat_eq (t : ℝ) : ∀ m : List (List ℝ),
    pruneMat t m = (m.map fun r => r.map (zeroSmall t), (m.map (countSmall t)).sum) := by
  intro m
  induction m with
  | nil => simp [pruneMat]
  | cons r rs ih => simp [pruneMat, pruneRow_eq, ih]

theorem pruneCube_eq (t : ℝ) : ∀ c : List (List (List ℝ)),
    pruneCube t c = (c.map fun m => m.map fun r => r.map (zeroSmall t),
      (c.map fun m => (m.map (countSmall t)).sum).sum) := by
  intro c
  induction c with
  | nil => simp [pruneCube]
  | cons m ms ih => simp [pruneCube, pruneMat_eq, ih]

theorem crossRow_one : ∀ (xs ys : List ℝ) (s : ℕ → ℝ), (∀ n, s n < 1) →
    (crossRow 1 xs ys s).1 = xs ∧ ∀ n, (crossRow 1 xs ys s).2 n < 1 := by
  intro xs
  induction xs with
  | nil => intro ys s h; exact ⟨rfl, h⟩
  | cons x xs ih =>
    intro ys s h
    obtain ⟨h1, h2⟩ := ih ys.tail (shift s 1) (fun n => h (n + 1))
    simp only [crossRow, if_pos (h 0)]
    exact ⟨by rw [h1], h2⟩

theorem crossMat_one : ∀ (m ys : List (List ℝ)) (s : ℕ → ℝ), (∀ n, s n < 1) →
    (crossMat 1 m ys s).1 = m ∧ ∀ n, (crossMat 1 m ys s).2 n < 1 := by
  intro m
  induction m with
  | nil => intro ys s h; exact ⟨rfl, h⟩
  | cons r rs ih =>
    intro ys s h
    obtain ⟨h1, h2⟩ := crossRow_one r (ys.headD []) s h
    obtain ⟨h3, h4⟩ := ih ys.tail _ h2
    simp only [crossMat]
    exact ⟨by rw [h1, h3], h4⟩

theorem crossCube_one : ∀ (c ys : List (List (List ℝ))) (s : ℕ → ℝ), (∀ n, s n < 1) →
    (crossCube 1 c ys s).1 = c ∧ ∀ n, (crossCube 1 c ys s).2 n < 1 := by
  intro c
  induction c with
  | nil => intro ys s h; exact ⟨rfl, h⟩
  | cons m ms ih =>
    intro ys s h
    obtain ⟨h1, h2⟩ := crossMat_one m (ys.headD []) s h
    obtain ⟨h3, h4⟩ := ih ys.tail _ h2
    simp only [crossCube]
    exact ⟨by rw [h1, h3], h4⟩

theorem crossRow_zero : ∀ (xs ys : List ℝ), xs.length = ys.length →
    ∀ (s : ℕ → ℝ), (∀ n, 0 ≤ s n) →
    (crossRow 0 xs ys s).1 = ys ∧ ∀ n, 0 ≤ (crossRow 0 xs ys s).2 n := by
  intro xs
  induction xs with
  | nil =>
    intro ys hl s h
    cases ys with
    | nil => exact ⟨rfl, h⟩
    | cons y ys => simp at hl
  | cons x xs ih =>
    intro ys hl s h
    cases ys with
    | nil => simp at hl
    | cons y ys =>
      have hlt : ¬ s 0 < 0 := not_lt.mpr (h 0)
      obtain ⟨h1, h2⟩ := ih ys (by simpa using hl) (shift s 1) (fun n => h (n + 1))
      simp only [crossRow, if_neg hlt, List.headD_cons, List.tail_cons]
      exact ⟨by rw [h1], h2⟩

theorem crossMat_zero : ∀ (m ys : List (List ℝ)),
    List.Forall₂ (fun r t => r.length = t.length) m ys →
    ∀ (s : ℕ → ℝ), (∀ n, 0 ≤ s n) →
    (crossMat 0 m ys s).1 = ys ∧ ∀ n, 0 ≤ (crossMat 0 m ys s).2 n := by
  intro m ys hf
  induction hf with
  | nil => intro s h; exact ⟨rfl, h⟩
  | cons hrt hrest ih =>
    intro s h
    obtain ⟨h1, h2⟩ := crossRow_zero _ _ hrt s h
    obtain ⟨h3, h4⟩ := ih _ h2
    simp only [crossMat, List.headD_cons, List.tail_cons]
    exact ⟨by rw [h1, h3], h4⟩

theorem crossCube_zero : ∀ (c ys : List (List (List ℝ))),
    List.Forall₂ (List.Forall₂ fun r t => r.length = t.length) c ys →
    ∀ (s : ℕ → ℝ), (∀ n, 0 ≤ s n) →
    (crossCube 0 c ys s).1 = ys ∧ ∀ n, 0 ≤ (crossCube 0 c ys s).2 n := by
  intro c ys hf
  induction hf with
  | nil => intro s h; exact ⟨rfl, h⟩
  | cons hmt hrest ih =>
    intro s h
    obtain ⟨h1, h2⟩ := crossMat_zero _ _ hmt s h
    obtain ⟨h3, h4⟩ := ih _ h2
    simp only [crossCube, List.headD_cons, List.tail_cons]
    exact ⟨by rw [h1, h3], h4⟩

theorem sameLen_forall2 : ∀ (m1 m2 : List (List ℝ)) (n : ℕ),
    m1.length = m2.length → (∀ r ∈ m1, r.length = n) → (∀ r ∈ m2, r.length = n) →
    List.Forall₂ (fun r t => r.length = t.length) m1 m2 := by
  intro m1
  induction m1 with
  | nil =>
    intro m2 n hl _ _
    cases m2 with
    | nil => exact List.Forall₂.nil
    | cons t ts => simp at hl
  | cons r rs ih =>
    intro m2 n hl h1 h2
    cases m2 with
    | nil => simp at hl
    | cons t ts =>
      refine List.Forall₂.cons ?_ (ih ts n (by simpa using hl) ?_ ?_)
      · rw [h1 r (by simp), h2 t (by simp)]
      · intro r' hr'; exact h1 r' (by simp [hr'])
      · intro t' ht'; exact h2 t' (by simp [ht'])

theorem wfWeights_forall2 : ∀ (w1 : List (List (List ℝ))) (L : List ℕ)
    (w2 : List (List (List ℝ))), wfWeights L w1 = true → wfWeights L w2 = true →
    List.Forall₂ (List.Forall₂ fun r t => r.length = t.length) w1 w2 := by
  intro w1
  induction w1 with
  | nil =>
    intro L w2 h1 h2
    cases L with
    | nil => simp [wfWeights] at h1
    | cons x L' =>
      cases L' with
      | nil =>
        cases w2 with
        | nil => exact List.Forall₂.nil
        | cons m2 ms2 => simp [wfWeights] at h2
      | cons y rest => simp [wfWeights] at h1
  | cons m1 ms1 ih =>
    intro L w2 h1 h2
    cases L with
    | nil => simp [wfWeights] at h1
    | cons x L' =>
      cases L' with
      | nil => simp [wfWeights] at h1
      | cons y rest =>
        cases w2 with
        | nil => simp [wfWeights] at h2
        | cons m2 ms2 =>
          simp only [wfWeights, Bool.and_eq_true, beq_iff_eq, List.all_eq_true] at h1 h2
          obtain ⟨⟨hl1, hr1⟩, hw1⟩ := h1
          obtain ⟨⟨hl2, hr2⟩, hw2⟩ := h2
          refine List.Forall₂.cons ?_ (ih (y :: rest) ms2 hw1 hw2)
          refine sameLen_forall2 m1 m2 x (by rw [hl1, hl2]) ?_ ?_
          · intro r hr; exact hr1 r hr
          · intro t ht; exact hr2 t ht

theorem wfBiases_forall2 : ∀ (b1 : List (List ℝ)) (L : List ℕ) (b2 : List (List ℝ)),
    wfBiases L b1 = true → wfBiases L b2 = true →
    List.Forall₂ (fun r t => r.length = t.length) b1 b2 := by
  intro b1
  induction b1 with
  | nil =>
    intro L b2 h1 h2
    cases L with
    | nil => simp [wfBiases] at h1
    | cons x L' =>
      cases L' with
      | nil =>
        cases b2 with
        | nil => exact List.Forall₂.nil
        | cons r2 rs2 => simp [wfBiases] at h2
      | cons y rest => simp [wfBiases] at h1
  | cons r1 rs1 ih =>
    intro L b2 h1 h2
    cases L with
    | nil => simp [wfBiases] at h1
    | cons x L' =>
      cases L' with
      | nil => simp [wfBiases] at h1
      | cons y rest =>
        cases b2 with
        | nil => simp [wfBiases] at h2
        | cons r2 rs2 =>
          simp only [wfBiases, Bool.and_eq_true, beq_iff_eq] at h1 h2
          obtain ⟨hl1, hb1⟩ := h1
          obtain ⟨hl2, hb2⟩ := h2
          exact List.Forall₂.cons (by rw [hl1, hl2]) (ih (y :: rest) rs2 hb1 hb2)

theorem zeroSmall_idem (t w : ℝ) : zeroSmall t (zeroSmall t w) = zeroSmall t w := by
  by_cases h : |w| < t <;> simp [zeroSmall, h]

theorem map_zeroSmall_idem (t : ℝ) (r : List ℝ) :
    (r.map (zeroSmall t)).map (zeroSmall t) = r.map (zeroSmall t) := by
  rw [List.map_map]
  exact List.map_congr_left fun w _ => zeroSmall_idem t w

/-! ## Claims -/

/-- Claim C1: for every genome whose weight matrices have rows of uniform
length (as every genome respecting the data-model shape invariants does) and
every input vector, `feedForwardOptimized` — with its 4-element unrolled
accumulation — returns exactly the same output vector as the straightforward
per-layer accumulation of `feedForward`; over real arithmetic the two code
paths are the same function. -/
theorem claim_C1_optimized_equals_naive (nn : NeuralNetwork)
    (h : ∀ wl ∈ nn.weights, ∀ r ∈ wl, r.length = (wl.headD []).length)
    (inputs : List ℝ) :
    feedForwardOptimized nn inputs = feedForwardNaive nn inputs :=
  ffOptGo_eq_ffNaiveGo nn.activation nn.weights nn.biases inputs h

/-- Witness for C1: the specification's worked example genome has uniform
rows, and on input `[1, 1]` the two passes agree. -/
theorem claim_C1_optimized_equals_naive_witness :
    (∀ wl ∈ nnEx.weights, ∀ r ∈ wl, r.length = (wl.headD []).length) ∧
      feedForwardOptimized nnEx [1, 1] = feedForwardNaive nnEx [1, 1] :=
  ⟨by decide, claim_C1_optimized_equals_naive nnEx (by decide) [1, 1]⟩

/-- Claim C7: the activation functions satisfy the clamped piecewise
definitions of the specification exactly: sigmoid is `0` below `-15`, `1`
above `15`, and `1/(1+e^-x)` otherwise; tanh is `1` above `10`, `-1` below
`-10`, and `(e2x-1)/(e2x+1)` with `e2x = e^(2x)` otherwise; relu is
`max 0 x`; leakyRelu is `x` for positive `x` and `alpha * x` otherwise, with
`alpha = 0.01` the default used by the activation map. -/
theorem claim_C7_activations (x : ℝ) :
    (x < -15 → sigmoid x = 0) ∧
    (x > 15 → sigmoid x = 1) ∧
    (¬ x < -15 → ¬ x > 15 → sigmoid x = 1 / (1 + Real.exp (-x))) ∧
    (x > 10 → NeuralNetwork.tanh x = 1) ∧
    (x < -10 → NeuralNetwork.tanh x = -1) ∧
    (¬ x > 10 → ¬ x < -10 →
      NeuralNetwork.tanh x = (Real.exp (2 * x) - 1) / (Real.exp (2 * x) + 1)) ∧
    relu x = max 0 x ∧
    (x > 0 → leakyRelu x 0.01 = x) ∧
    (¬ x > 0 → leakyRelu x 0.01 = 0.01 * x) := by
  refine ⟨?_, ?_, ?_, ?_, ?_, ?_, rfl, ?_, ?_⟩
  · intro h; simp only [sigmoid]; rw [if_pos h]
  · intro h
    have h' : ¬ x < -15 := by linarith
    simp only [sigmoid]; rw [if_neg h', if_pos h]
  · intro h1 h2; simp only [sigmoid]; rw [if_neg h1, if_neg h2]
  · intro h; simp only [NeuralNetwork.tanh]; rw [if_pos h]
  · intro h
    have h' : ¬ x > 10 := by linarith
    simp only [NeuralNetwork.tanh]; rw [if_neg h', if_pos h]
  · intro h1 h2; simp only [NeuralNetwork.tanh]; rw [if_neg h1, if_neg h2]
  · intro h; simp only [leakyRelu]; rw [if_pos h]
  · intro h; simp only [leakyRelu]; rw [if_neg h]

/-- Witness for C7: at `x = 16` the clamp hypotheses hold and sigmoid
returns `1`. -/
theorem claim_C7_activations_witness : sigmoid 16 = 1 :=
  (claim_C7_activations 16).2.1 (by norm_num)

/-- Claim C9: with mutation rate `0`, `mutate` leaves every weight and every
bias unchanged regardless of the random draws (each draw of the JavaScript
engine is nonnegative). -/
theorem claim_C9_mutate_rate_zero (nn : NeuralNetwork) (amount : ℝ) (s : ℕ → ℝ)
    (h : ∀ n, 0 ≤ s n) : mutate nn 0 amount s = nn := by
  obtain ⟨L, act, nm, w, b, flag⟩ := nn
  obtain ⟨h1, h2⟩ := mutateCube_zero amount w s h
  obtain ⟨h3, _⟩ := mutateMat_zero amount b _ h2
  simp only [mutate]
  rw [NeuralNetwork.mk.injEq]
  exact ⟨rfl, rfl, rfl, h1, h3, rfl⟩

/-- Witness for C9: a concrete genome, amount `5`, and the constant-zero
draw stream. -/
theorem claim_C9_mutate_rate_zero_witness :
    (∀ n : ℕ, (0 : ℝ) ≤ (fun _ : ℕ => (0 : ℝ)) n) ∧
      mutate gC 0 5 (fun _ => 0) = gC :=
  ⟨fun _ => le_refl 0, claim_C9_mutate_rate_zero gC 5 (fun _ => 0) fun _ => le_refl 0⟩

/-- Claim C2: for every genome whose stored activation name is one of the
enumerated strings and agrees with its bound activation function (as holds
for every genome the class itself builds), deserializing its serialization
reproduces the genome exactly — topology, weights, biases and activation kind
preserved — and hence evaluates identically on every input. -/
theorem claim_C2_roundtrip (nn : NeuralNetwork)
    (hname : nn.activationName ∈ ["sigmoid", "relu", "tanh", "leakyRelu"])
    (hact : nn.activation = activationOf nn.activationName)
    (hflag : nn.useOptimizedOperations = true) :
    fromJSON (toJSON nn) = nn ∧
      ∀ v, feedForward (fromJSON (toJSON nn)) v = feedForward nn v := by
  have hne : nn.activationName ≠ "" := by
    simp only [List.mem_cons, List.not_mem_nil, or_false] at hname
    rcases hname with h | h | h | h <;> rw [h] <;> decide
  have h1 : fromJSON (toJSON nn) = nn := by
    obtain ⟨L, act, nm, w, b, flag⟩ := nn
    simp only [activationOf] at hact
    simp only [fromJSON, toJSON, if_neg hne]
    rw [NeuralNetwork.mk.injEq]
    exact ⟨rfl, hact.symm, rfl, rfl, rfl, hflag.symm⟩
  exact ⟨h1, fun v => by rw [h1]⟩

/-- Witness for C2: the worked-example genome carries the name `"sigmoid"`
consistently with its bound activation, and round-trips exactly. -/
theorem claim_C2_roundtrip_witness :
    nnEx.activationName ∈ ["sigmoid", "relu", "tanh", "leakyRelu"] ∧
      fromJSON (toJSON nnEx) = nnEx :=
  ⟨by decide,
    (claim_C2_roundtrip nnEx (by decide)
      (by simp [nnEx, activationOf, activationLookup]) rfl).1⟩

/-- Claim C3 (code divergence): `feedForward` performs no input-length
check. On the genome `gA` with topology `[1, 1]` (input width `1`), the
input `[2, 7]` of length `2` does not fail with `DimensionMismatch`: the
evaluation succeeds, silently ignores the extra entry, and returns
`[sigmoid 2]`. -/
theorem claim_C3_no_dimension_check :
    gA.layers.getD 0 0 = 1 ∧ ([2, 7] : List ℝ).length = 2 ∧
      feedForward gA [2, 7] = [sigmoid 2] := by
  refine ⟨rfl, rfl, ?_⟩
  have hu : unrolledSum [2, 7] [1] 1 0 0 = 2 := by
    rw [unrolledSum_eq [2, 7] [1] 1 1 0 0 rfl, ← Finset.range_eq_Ico,
      Finset.sum_range_one]
    norm_num [List.getD]
  have hr : List.range 1 = [0] := rfl
  simp [feedForward, feedForwardOptimized, gA, ffOptGo, optLayer, hr,
    List.getD, hu]

/-- Claim C4 (code divergence): the constructor performs no topology
validation. Called with the invalid topology `[5]` (fewer than two entries)
it does not fail with `InvalidTopology`: it returns a genome with that
topology and empty weight and bias storage, for any random source. -/
theorem claim_C4_no_topology_validation (s : ℕ → ℝ) :
    construct [5] sigmoid "sigmoid" s =
      { layers := [5]
        activation := sigmoid
        activationName := "sigmoid"
        weights := []
        biases := []
        useOptimizedOperations := true } := rfl

/-- Claim C5 (code divergence): `difference` performs no topology
compatibility check. On the shape-incompatible genomes `gA` (topology
`[1, 1]`) and `gB` (topology `[1, 2]`) it does not fail with
`IncompatibleTopology`: it silently indexes `gB`'s larger arrays over `gA`'s
bounds and returns the number `3 / 2`. -/
theorem claim_C5_no_diff_compatibility_check :
    gA.layers ≠ gB.layers ∧ difference gA gB = 3 / 2 := by
  constructor
  · decide
  · have e1 : |(1 : ℝ) - 3| = 2 := by
      rw [abs_of_nonpos (by norm_num : (1 : ℝ) - 3 ≤ 0)]; norm_num
    have e2 : |(0 : ℝ) - 1| = 1 := by
      rw [abs_of_nonpos (by norm_num : (0 : ℝ) - 1 ≤ 0)]; norm_num
    simp only [difference, gA, gB, diffAccCube, diffAccMat, diffAccRow,
      List.headD, List.tail_cons, e1, e2]
    norm_num

/-- Claim C10 (counterexample): the empty string is a string outside the
recognized activation enumeration, yet `fromJSON` does not retain it: the
JavaScript falsy check `json.activationName || 'sigmoid'` replaces it, so
the round-tripped name differs from the record's name. -/
theorem claim_C10_counterexample :
    recEmptyName.activationName ∉ (["sigmoid", "relu", "tanh", "leakyRelu"] : List String) ∧
      (toJSON (fromJSON recEmptyName)).activationName ≠ recEmptyName.activationName := by
  constructor
  · decide
  · decide

/-- Claim C10 as amended: for every serialized record whose activation name
is a non-empty string outside the recognized enumeration, `fromJSON`
succeeds, binds the sigmoid activation, and retains the unrecognized name
unchanged, so the round-tripped name equals the record's name. -/
theorem claim_C10_unknown_activation (j : NNJson)
    (hname : j.activationName ∉ (["sigmoid", "relu", "tanh", "leakyRelu"] : List String))
    (hne : j.activationName ≠ "") :
    fromJSON j =
      { layers := j.layers
        activation := sigmoid
        activationName := j.activationName
        weights := j.weights
        biases := j.biases
        useOptimizedOperations := true } ∧
      (toJSON (fromJSON j)).activationName = j.activationName := by
  have hlk : activationLookup j.activationName = none := by
    simp only [List.mem_cons, List.not_mem_nil, or_false, not_or] at hname
    obtain ⟨h1, h2, h3, h4⟩ := hname
    simp only [activationLookup, if_neg h1, if_neg h2, if_neg h3, if_neg h4]
  constructor
  · simp only [fromJSON, hlk, Option.getD_none, if_neg hne]
  · simp only [toJSON, fromJSON, if_neg hne]

/-- Witness for the amended C10: the unrecognized non-empty name `"swish"`
is preserved through a round trip while sigmoid is bound. -/
theorem claim_C10_unknown_activation_witness :
    (recSwish.activationName ∉ (["sigmoid", "relu", "tanh", "leakyRelu"] : List String) ∧
        recSwish.activationName ≠ "") ∧
      (toJSON (fromJSON recSwish)).activationName = recSwish.activationName :=
  ⟨⟨by decide, by decide⟩,
    (claim_C10_unknown_activation recSwish (by decide) (by decide)).2⟩

/-- Claim C8 (counterexample): an immediately repeated `prune` with the same
threshold does not return `0`. On the genome `nnP` with single weight `1/4`
and threshold `1/2`, the first prune zeroes the weight; the second prune
finds `|0| < 1/2` again, re-zeroes it, and returns `1`. -/
theorem claim_C8_counterexample :
    (prune (prune nnP (1 / 2)).1 (1 / 2)).2 ≠ 0 := by
  have h : |(1 / 4 : ℝ)| < 1 / 2 := by
    rw [abs_of_nonneg (by norm_num : (0 : ℝ) ≤ 1 / 4)]; norm_num
  have h0 : |(0 : ℝ)| < 1 / 2 := by rw [abs_zero]; norm_num
  have hz : zeroSmall (1 / 2 : ℝ) (1 / 4) = 0 := by
    unfold zeroSmall; exact if_pos h
  have hc0 : countSmall (1 / 2 : ℝ) [0] = 1 := by
    simp [countSmall, List.filter, decide_eq_true h0]
  have hw : (prune nnP (1 / 2)).1.weights = [[[0]]] := by
    rw [show (prune nnP (1 / 2)).1.weights = (pruneCube (1 / 2) nnP.weights).1 from rfl,
      pruneCube_eq]
    simp only [nnP, List.map_cons, List.map_nil, hz]
  have h2 : (prune (prune nnP (1 / 2)).1 (1 / 2)).2 = (pruneCube (1 / 2) [[[0]]]).2 := by
    rw [show (prune (prune nnP (1 / 2)).1 (1 / 2)).2 =
        (pruneCube (1 / 2) (prune nnP (1 / 2)).1.weights).2 from rfl, hw]
  rw [h2, pruneCube_eq]
  simp only [List.map_cons, List.map_nil, hc0, List.sum_cons, List.sum_nil]
  omega

/-- Claim C8 as amended: `prune(G, t)` sets to `0` exactly the weight
elements with `|w| < t`, leaves every bias element unchanged, and returns
the count of the elements it zeroed (elements that were already `0` are
zeroed and counted again when `0 < t`); a repeated `prune(G, t)` leaves the
genome unchanged (idempotent in state), but its return value is the count of
zeroed positions, not `0`. -/
theorem claim_C8_prune (nn : NeuralNetwork) (t : ℝ) :
    (prune nn t).1.weights =
      nn.weights.map (fun m => m.map fun r => r.map (zeroSmall t)) ∧
    (prune nn t).1.biases = nn.biases ∧
    (prune nn t).2 = (nn.weights.map fun m => (m.map (countSmall t)).sum).sum ∧
    (prune (prune nn t).1 t).1 = (prune nn t).1 := by
  obtain ⟨L, act, nm, w, b, flag⟩ := nn
  simp only [prune, pruneCube_eq]
  refine ⟨trivial, trivial, trivial, ?_⟩
  have hmw : (w.map fun m => m.map fun r => r.map (zeroSmall t)).map
      (fun m => m.map fun r => r.map (zeroSmall t)) =
      w.map fun m => m.map fun r => r.map (zeroSmall t) := by
    rw [List.map_map]
    refine List.map_congr_left fun m _ => ?_
    show (m.map fun r => r.map (zeroSmall t)).map (fun r => r.map (zeroSmall t)) = _
    rw [List.map_map]
    exact List.map_congr_left fun r _ => map_zeroSmall_idem t r
  exact congrArg (fun W => NeuralNetwork.mk L act nm W b flag) hmw

/-- Claim C6: for two well-formed genomes with equal topologies,
`crossover` with rate `1.0` succeeds and produces a child whose weights and
biases are element-wise equal to parent `A`'s, and with rate `0.0` a child
element-wise equal to parent `B`'s, regardless of the random draw streams
(every draw of the JavaScript engine lies in `[0, 1)`). -/
theorem claim_C6_crossover_extremes (a b : NeuralNetwork) (s1 s2 : ℕ → ℝ)
    (hlay : a.layers = b.layers) (hwa : wellFormed a = true) (hwb : wellFormed b = true)
    (hs1 : ∀ n, 0 ≤ s1 n ∧ s1 n < 1) (hs2 : ∀ n, 0 ≤ s2 n ∧ s2 n < 1) :
    (∃ c, crossover a b 1 s1 = Except.ok c ∧
      c.weights = a.weights ∧ c.biases = a.biases) ∧
    (∃ c, crossover a b 0 s2 = Except.ok c ∧
      c.weights = b.weights ∧ c.biases = b.biases) := by
  have hna : ¬ a.layers.length ≠ b.layers.length := by rw [hlay]; exact fun h => h rfl
  have hany : ¬ ((List.range a.layers.length).any
      (fun i => a.layers.getD i 0 != b.layers.getD i 0) = true) := by
    rw [hlay]
    simp
  simp only [wellFormed, Bool.and_eq_true] at hwa hwb
  obtain ⟨⟨⟨_, _⟩, hwWa⟩, hwBa⟩ := hwa
  obtain ⟨⟨⟨_, _⟩, hwWb⟩, hwBb⟩ := hwb
  rw [← hlay] at hwWb hwBb
  have hfw : List.Forall₂ (List.Forall₂ fun r t => r.length = t.length)
      a.weights b.weights := wfWeights_forall2 a.weights a.layers b.weights hwWa hwWb
  have hfb : List.Forall₂ (fun r t => r.length = t.length) a.biases b.biases :=
    wfBiases_forall2 a.biases a.layers b.biases hwBa hwBb
  constructor
  · obtain ⟨hw1, hws1⟩ := crossCube_one a.weights b.weights s1 (fun n => (hs1 n).2)
    obtain ⟨hb1, _⟩ := crossMat_one a.biases b.biases _ hws1
    have e1 : crossover a b 1 s1 = Except.ok
        { layers := a.layers
          activation := a.activation
          activationName := a.activationName
          weights := (crossCube 1 a.weights b.weights s1).1
          biases := (crossMat 1 a.biases b.biases
            (crossCube 1 a.weights b.weights s1).2).1
          useOptimizedOperations := true } := by
      simp only [crossover, if_neg hna, if_neg hany]
    exact ⟨_, e1, hw1, hb1⟩
  · obtain ⟨hw0, hws0⟩ := crossCube_zero a.weights b.weights hfw s2 (fun n => (hs2 n).1)
    obtain ⟨hb0, _⟩ := crossMat_zero a.biases b.biases hfb _ hws0
    have e0 : crossover a b 0 s2 = Except.ok
        { layers := a.layers
          activation := a.activation
          activationName := a.activationName
          weights := (crossCube 0 a.weights b.weights s2).1
          biases := (crossMat 0 a.biases b.biases
            (crossCube 0 a.weights b.weights s2).2).1
          useOptimizedOperations := true } := by
      simp only [crossover, if_neg hna, if_neg hany]
    exact ⟨_, e0, hw0, hb0⟩

/-- Witness for C6: concrete well-formed parents of topology `[1, 1]` and the
constant `1/2` draw stream; rate `1.0` reproduces parent `A` exactly. -/
theorem claim_C6_crossover_extremes_witness :
    (gC.layers = gD.layers ∧ wellFormed gC = true ∧ wellFormed gD = true ∧
      (∀ n : ℕ, 0 ≤ (fun _ : ℕ => (1 / 2 : ℝ)) n ∧ (fun _ : ℕ => (1 / 2 : ℝ)) n < 1)) ∧
    (∃ c, crossover gC gD 1 (fun _ => 1 / 2) = Except.ok c ∧
      c.weights = gC.weights ∧ c.biases = gC.biases) := by
  have hs : ∀ n : ℕ, 0 ≤ (fun _ : ℕ => (1 / 2 : ℝ)) n ∧ (fun _ : ℕ => (1 / 2 : ℝ)) n < 1 :=
    fun _ => ⟨by norm_num, by norm_num⟩
  exact ⟨⟨rfl, by decide, by decide, hs⟩,
    (claim_C6_crossover_extremes gC gD (fun _ => 1 / 2) (fun _ => 1 / 2) rfl
      (by decide) (by decide) hs hs).1⟩
